import Mathlib

/-!
Verification of the `lnp-core` payment type layer (`src/payment/types.rs`)
against its natural-language specification.

Bytes are modelled as natural numbers; byte strings as `List Nat`.
Machine integers (`u8`, `u16`, `u32`) are natural numbers, with explicit
`% 2 ^ w` masking at the points where the Rust code truncates, and with
range hypotheses (`< 2 ^ w`) standing in for the Rust types where a claim
needs them.
-/

namespace LnpCore

/-- Byte strings: lists of naturals, each intended to be `< 256`. -/
abbrev Bytes := List Nat

/-- Big-endian two-byte encoding of a `u16` value (Rust `u16::to_be_bytes`). -/
def be16 (n : Nat) : Bytes := [n / 256 % 256, n % 256]

/-- Big-endian recombination of two bytes (Rust `u16::from_be_bytes`). -/
def fromBe16 (bs : Bytes) : Nat := bs.getD 0 0 * 256 + bs.getD 1 0

/-- Model of `Read::read_exact` into an `n`-byte buffer: succeeds with the
first `n` bytes and the remaining stream, fails when the stream is shorter. -/
def readExact (n : Nat) (d : Bytes) : Option (Bytes × Bytes) :=
  if n ≤ d.length then some (d.take n, d.drop n) else none

/-- Model of `strict_encoding::Error` (only the variants this code can hit). -/
inductive StrictErr
  | ioError
  | enumValueNotKnown
deriving DecidableEq

deriving instance DecidableEq for Except

/-- Model of `std::io::Error` as produced by `lightning_encode` (only the
`InvalidData` kind is ever constructed). -/
inductive IoErr
  | invalidData
deriving DecidableEq

/-- Model of `lightning_encoding::Error` (the variants reachable here). -/
inductive LnErr
  | ioError
  | dataIntegrityError (msg : String)
deriving DecidableEq

/-! ## ShortChannelId (`src/payment/types.rs` lines 386-477) -/

/-- `ShortChannelId` struct: `block_height: u32`, `tx_index: u32`,
`output_index: u16`. -/
structure ShortChannelId where
  block_height : Nat
  tx_index : Nat
  output_index : Nat
deriving DecidableEq

/-- `ShortChannelId::new`: rejects `block_height > 2 << 23` or
`tx_index > 2 << 23`, otherwise builds the struct. -/
def ShortChannelId.new (block_height tx_index output_index : Nat) :
    Option ShortChannelId :=
  if 2 <<< 23 < block_height ∨ 2 <<< 23 < tx_index then none
  else some ⟨block_height, tx_index, output_index⟩

/-- `ShortChannelId::strict_encode`: 3-byte big-endian block height,
3-byte big-endian tx index, 2-byte big-endian output index
(`x >> k & 0xFF` is `x / 2 ^ k % 256`). -/
def ShortChannelId.strict_encode (s : ShortChannelId) : Bytes :=
  [s.block_height / 65536 % 256, s.block_height / 256 % 256,
    s.block_height % 256,
    s.tx_index / 65536 % 256, s.tx_index / 256 % 256, s.tx_index % 256,
    s.output_index / 256 % 256, s.output_index % 256]

/-- `ShortChannelId::strict_decode`: reads 3 + 3 + 2 bytes and recombines
them big-endian (`(b0 << 16) + (b1 << 8) + b2`); returns the decoded value
and the unconsumed rest of the stream. -/
def ShortChannelId.strict_decode (d : Bytes) :
    Except StrictErr (ShortChannelId × Bytes) :=
  match readExact 3 d with
  | none => .error .ioError
  | some (bh, d1) =>
    match readExact 3 d1 with
    | none => .error .ioError
    | some (ti, d2) =>
      match readExact 2 d2 with
      | none => .error .ioError
      | some (oi, d3) =>
        .ok (⟨bh.getD 0 0 * 65536 + bh.getD 1 0 * 256 + bh.getD 2 0,
          ti.getD 0 0 * 65536 + ti.getD 1 0 * 256 + ti.getD 2 0,
          oi.getD 0 0 * 256 + oi.getD 1 0⟩, d3)

/-! ## TxType (`src/payment/types.rs` lines 116-140) -/

/-- `TxType` enum: two known transaction roles plus an open `Unknown(u16)`. -/
inductive TxType
  | HtlcSuccess
  | HtlcTimeout
  | Unknown (x : Nat)
deriving DecidableEq

/-- `impl From<TxType> for u16`. -/
def TxType.to_code : TxType → Nat
  | .HtlcSuccess => 0
  | .HtlcTimeout => 1
  | .Unknown x => x

/-- `impl From<u16> for TxType`. -/
def TxType.from_code : Nat → TxType
  | 0 => .HtlcSuccess
  | 1 => .HtlcTimeout
  | x => .Unknown x

/-! ## ExtensionId (`src/payment/types.rs` lines 55-97) -/

/-- `ExtensionId` enum: the twelve protocol-extension tags. -/
inductive ExtensionId
  | Channel
  | Bolt3
  | Eltoo
  | Taproot
  | Htlc
  | Ptlc
  | ShutdownScript
  | AnchorOut
  | Dlc
  | Lightspeed
  | Bip96
  | Rgb
deriving DecidableEq, Fintype

/-- In-memory discriminant of an `ExtensionId` variant, in declaration
order. -/
def ExtensionId.discr : ExtensionId → Nat
  | .Channel => 0
  | .Bolt3 => 1
  | .Eltoo => 2
  | .Taproot => 3
  | .Htlc => 4
  | .Ptlc => 5
  | .ShutdownScript => 6
  | .AnchorOut => 7
  | .Dlc => 8
  | .Lightspeed => 9
  | .Bip96 => 10
  | .Rgb => 11

/-- The twelve `ExtensionId` variants in declaration (discriminant) order. -/
def ExtensionId.variants : List ExtensionId :=
  [.Channel, .Bolt3, .Eltoo, .Taproot, .Htlc, .Ptlc, .ShutdownScript,
    .AnchorOut, .Dlc, .Lightspeed, .Bip96, .Rgb]

/-- Variant with a given discriminant, when one exists. -/
def ExtensionId.ofDiscr (c : Nat) : Option ExtensionId :=
  ExtensionId.variants[c]?

/-- Modelled from the spec: the `strict_encoding` crate's structural
serialization of the `ExtensionId` enum is not under `src/`; per the spec
it encodes the in-memory discriminant as a 16-bit big-endian value. -/
def ExtensionId.strict_serialize (id : ExtensionId) : Bytes := be16 id.discr

/-- Modelled from the spec: the matching structural deserialization; it
fails with a decode error for byte pairs whose value matches no variant. -/
def ExtensionId.strict_deserialize (bs : Bytes) : Except StrictErr ExtensionId :=
  match ExtensionId.ofDiscr (fromBe16 bs) with
  | some id => .ok id
  | none => .error .enumValueNotKnown

/-- `impl From<ExtensionId> for u16`: `u16::from_be_bytes` applied to the
structural serialization. -/
def ExtensionId.to_code (id : ExtensionId) : Nat :=
  fromBe16 id.strict_serialize

/-- `impl TryFrom<u16> for ExtensionId`: structural deserialization of
`value.to_be_bytes()`. -/
def ExtensionId.from_code (value : Nat) : Except StrictErr ExtensionId :=
  ExtensionId.strict_deserialize (be16 value)

/-! ## ChannelId derivation (`src/payment/types.rs` lines 230-245) -/

/-- `ChannelId::with(funding_outpoint)`: the funding txid is 32 bytes; the
outpoint's `vout` is a `u32` (per `bitcoin::OutPoint`), so
`vout.to_be_bytes()` is its four big-endian bytes, and the code XORs
`vout[0]` into `slice[30]` and `vout[1]` into `slice[31]`. Named
`with_outpoint` because `with` is reserved in Lean. -/
def ChannelId.with_outpoint (txid : Bytes) (vout : Nat) : Bytes :=
  let v : Bytes := [vout / 16777216 % 256, vout / 65536 % 256,
    vout / 256 % 256, vout % 256]
  let s := txid.set 30 (txid.getD 30 0 ^^^ v.getD 0 0)
  s.set 31 (s.getD 31 0 ^^^ v.getD 1 0)

/-- The derivation the claim and the spec describe: XOR the two low-order
bytes of the txid (bytes 30 and 31) with the big-endian bytes of the
16-bit output index. Stated for comparison with `ChannelId.with_outpoint`. -/
def derive_channel_id_spec (txid : Bytes) (idx : Nat) : Bytes :=
  let s := txid.set 30 (txid.getD 30 0 ^^^ idx / 256 % 256)
  s.set 31 (s.getD 31 0 ^^^ idx % 256)

/-- `ChannelId::is_wildcard`: all 32 bytes zero. -/
def ChannelId.is_wildcard (id : Bytes) : Bool :=
  id == List.replicate 32 0

/-! ## AnnouncedNodeAddr (`src/payment/types.rs` lines 483-792) -/

/-- `AnnouncedNodeAddr` enum: the four BOLT7 address families. -/
inductive AnnouncedNodeAddr
  | IpV4 (addr : Bytes) (port : Nat)
  | IpV6 (addr : Bytes) (port : Nat)
  | OnionV2 (addr : Bytes) (port : Nat)
  | OnionV3 (ed25519_pubkey : Bytes) (checksum : Option Nat)
      (version : Option Nat) (port : Nat)
deriving DecidableEq

/-- Well-formedness capturing the Rust field types: the fixed array
lengths, byte-sized entries, 16-bit ports and checksums, 8-bit version. -/
def AnnouncedNodeAddr.WF : AnnouncedNodeAddr → Prop
  | .IpV4 a p => a.length = 4 ∧ (∀ b ∈ a, b < 256) ∧ p < 65536
  | .IpV6 a p => a.length = 16 ∧ (∀ b ∈ a, b < 256) ∧ p < 65536
  | .OnionV2 a p => a.length = 10 ∧ (∀ b ∈ a, b < 256) ∧ p < 65536
  | .OnionV3 pk c v p => pk.length = 32 ∧ (∀ b ∈ pk, b < 256) ∧
      (∀ x ∈ c, x < 65536) ∧ (∀ x ∈ v, x < 256) ∧ p < 65536

/-- `AnnouncedNodeAddr::into_u8`: the wire family tag. -/
def AnnouncedNodeAddr.into_u8 : AnnouncedNodeAddr → Nat
  | .IpV4 _ _ => 1
  | .IpV6 _ _ => 2
  | .OnionV2 _ _ => 3
  | .OnionV3 _ _ _ _ => 4

/-- `AnnouncedNodeAddr::lightning_encode`: 1-byte family tag, family body,
2-byte big-endian port; the OnionV3 arm writes the 2-byte checksum and the
1-byte version between pubkey and port, failing with an `InvalidData` error
when either is absent. -/
def AnnouncedNodeAddr.lightning_encode : AnnouncedNodeAddr → Except IoErr Bytes
  | .IpV4 addr port => .ok ([1] ++ addr ++ be16 port)
  | .IpV6 addr port => .ok ([2] ++ addr ++ be16 port)
  | .OnionV2 addr port => .ok ([3] ++ addr ++ be16 port)
  | .OnionV3 pk checksum version port =>
    match checksum with
    | none => .error .invalidData
    | some cs =>
      match version with
      | none => .error .invalidData
      | some vs => .ok ([4] ++ pk ++ be16 cs ++ [vs % 256] ++ be16 port)

/-- `AnnouncedNodeAddr::lightning_decode`: reads the 1-byte tag, then the
fixed-width body of the matching family; an unknown tag fails with the
`DataIntegrityError` naming the BOLT7 address format. Returns the decoded
value and the unconsumed rest of the stream. -/
def AnnouncedNodeAddr.lightning_decode (d : Bytes) :
    Except LnErr (AnnouncedNodeAddr × Bytes) :=
  match readExact 1 d with
  | none => .error .ioError
  | some (tb, d1) =>
    let tag := tb.getD 0 0
    if tag = 1 then
      match readExact 4 d1 with
      | none => .error .ioError
      | some (addr, d2) =>
        match readExact 2 d2 with
        | none => .error .ioError
        | some (pb, d3) => .ok (.IpV4 addr (fromBe16 pb), d3)
    else if tag = 2 then
      match readExact 16 d1 with
      | none => .error .ioError
      | some (addr, d2) =>
        match readExact 2 d2 with
        | none => .error .ioError
        | some (pb, d3) => .ok (.IpV6 addr (fromBe16 pb), d3)
    else if tag = 3 then
      match readExact 10 d1 with
      | none => .error .ioError
      | some (addr, d2) =>
        match readExact 2 d2 with
        | none => .error .ioError
        | some (pb, d3) => .ok (.OnionV2 addr (fromBe16 pb), d3)
    else if tag = 4 then
      match readExact 32 d1 with
      | none => .error .ioError
      | some (pk, d2) =>
        match readExact 2 d2 with
        | none => .error .ioError
        | some (cb, d3) =>
          match readExact 1 d3 with
          | none => .error .ioError
          | some (vb, d4) =>
            match readExact 2 d4 with
            | none => .error .ioError
            | some (pb, d5) =>
              .ok (.OnionV3 pk (some (fromBe16 cb)) (some (vb.getD 0 0))
                (fromBe16 pb), d5)
    else .error (.dataIntegrityError "Wrong Network Address Format")

/-! ## Uniform address form (`src/payment/types.rs` lines 534-654) -/

/-- Model of `strict_encoding::net::AddrFormat`; the crate defines more
formats than the four used here, so one extra format keeps the decoder's
catch-all arm reachable. -/
inductive AddrFormat
  | ipV4
  | ipV6
  | onionV2
  | onionV3
  | lightning
deriving DecidableEq

/-- Model of `strict_encoding::net::Transport` (value-irrelevant here:
`AnnouncedNodeAddr::transport` always returns `None`). -/
inductive Transport
  | tcp
  | udp
deriving DecidableEq

/-- Model of `strict_encoding::net::DecodeError` (the variants used). -/
inductive DecodeErr
  | insufficientData
  | invalidAddr
deriving DecidableEq

/-- Model of `strict_encoding::net::UniformAddr`: format tag, `ADDR_LEN`
(= 33) byte buffer, optional port, optional transport. -/
structure UniformAddr where
  addr_format : AddrFormat
  addr : Bytes
  port : Option Nat
  transport : Option Transport
deriving DecidableEq

/-- `Uniform::addr_format` impl for `AnnouncedNodeAddr`. -/
def AnnouncedNodeAddr.addr_format : AnnouncedNodeAddr → AddrFormat
  | .IpV4 _ _ => .ipV4
  | .IpV6 _ _ => .ipV6
  | .OnionV2 _ _ => .onionV2
  | .OnionV3 _ _ _ _ => .onionV3

/-- `Uniform::addr` impl: the family bytes are copied at a family-specific
offset into a zeroed 33-byte buffer (offset 29 for IPv4, 17 for IPv6,
23 for OnionV2, 1 for OnionV3). -/
def AnnouncedNodeAddr.addr : AnnouncedNodeAddr → Bytes
  | .IpV4 a _ => List.replicate 29 0 ++ a
  | .IpV6 a _ => List.replicate 17 0 ++ a
  | .OnionV2 a _ => List.replicate 23 0 ++ a
  | .OnionV3 pk _ _ _ => List.replicate 1 0 ++ pk

/-- `Uniform::port` impl: every variant carries a port. -/
def AnnouncedNodeAddr.port : AnnouncedNodeAddr → Option Nat
  | .IpV4 _ p => some p
  | .IpV6 _ p => some p
  | .OnionV2 _ p => some p
  | .OnionV3 _ _ _ p => some p

/-- `Uniform::transport` impl: always `None`. -/
def AnnouncedNodeAddr.transport (_ : AnnouncedNodeAddr) : Option Transport :=
  none

/-- Modelled from the spec: the `Uniform` trait's provided `to_uniform_addr`
lives in the external `strict_encoding` crate (not under `src/`); it
assembles the uniform form from the trait methods implemented here:
format tag, fixed-width address buffer, port, transport. -/
def AnnouncedNodeAddr.to_uniform_addr (a : AnnouncedNodeAddr) : UniformAddr :=
  ⟨a.addr_format, a.addr, a.port, a.transport⟩

/-- `AnnouncedNodeAddr::from_uniform_addr_lossy`: recovers the family bytes
from the format-specific offset; fails with `InsufficientData` when the
uniform value has no port and with `InvalidAddr` for an unhandled format;
the OnionV3 arm always sets `checksum = None` and `version = None`. -/
def AnnouncedNodeAddr.from_uniform_addr_lossy (u : UniformAddr) :
    Except DecodeErr AnnouncedNodeAddr :=
  match u.addr_format with
  | .ipV4 =>
    match u.port with
    | some p => .ok (.IpV4 (u.addr.drop 29) p)
    | none => .error .insufficientData
  | .ipV6 =>
    match u.port with
    | some p => .ok (.IpV6 (u.addr.drop 17) p)
    | none => .error .insufficientData
  | .onionV2 =>
    match u.port with
    | some p => .ok (.OnionV2 (u.addr.drop 23) p)
    | none => .error .insufficientData
  | .onionV3 =>
    match u.port with
    | some p => .ok (.OnionV3 (u.addr.drop 1) none none p)
    | none => .error .insufficientData
  | _ => .error .invalidAddr

/-- `AnnouncedNodeAddr::from_uniform_addr`: delegates to the lossy
conversion. -/
def AnnouncedNodeAddr.from_uniform_addr (u : UniformAddr) :
    Except DecodeErr AnnouncedNodeAddr :=
  AnnouncedNodeAddr.from_uniform_addr_lossy u

/-! ## AddressList (`src/payment/types.rs` lines 797-827) -/

/-- `AddressList` wraps `Vec<AnnouncedNodeAddr>`; modelled as the list. -/
abbrev AddressList := List AnnouncedNodeAddr

/-- Body of `AddressList::lightning_encode`: each element's wire encoding
concatenated in order, failing as soon as one element fails. -/
def encodeItems : List AnnouncedNodeAddr → Except IoErr Bytes
  | [] => .ok []
  | a :: rest =>
    match a.lightning_encode with
    | .error e => .error e
    | .ok b =>
      match encodeItems rest with
      | .error e => .error e
      | .ok bs => .ok (b ++ bs)

/-- `AddressList::lightning_encode`: the element count truncated to `u16`
(`len as u16`), big-endian, followed by the element encodings. -/
def AddressList.lightning_encode (l : AddressList) : Except IoErr Bytes :=
  match encodeItems l with
  | .error e => .error e
  | .ok body => .ok (be16 (l.length % 65536) ++ body)

/-- Loop of `AddressList::lightning_decode`: decodes exactly `n`
addresses. -/
def decodeItems : Nat → Bytes → Except LnErr (List AnnouncedNodeAddr × Bytes)
  | 0, d => .ok ([], d)
  | n + 1, d =>
    match AnnouncedNodeAddr.lightning_decode d with
    | .error e => .error e
    | .ok (a, d1) =>
      match decodeItems n d1 with
      | .error e => .error e
      | .ok (rest, d2) => .ok (a :: rest, d2)

/-- `AddressList::lightning_decode`: reads the 2-byte big-endian count and
then that many addresses. -/
def AddressList.lightning_decode (d : Bytes) :
    Except LnErr (AddressList × Bytes) :=
  match readExact 2 d with
  | none => .error .ioError
  | some (lb, d1) => decodeItems (fromBe16 lb) d1

/-- A 65536-element address list: every element wire-encodes, but the
list's length does not fit the wire count field. -/
def bigList : AddressList :=
  List.replicate 65536 (.IpV4 [255, 254, 253, 252] 9735)

/-! ## Helper lemmas -/

lemma two_shiftLeft_23 : (2 <<< 23 : Nat) = 2 ^ 24 := by
  norm_num [Nat.shiftLeft_eq]

lemma fromBe16_be16 (n : Nat) (hn : n < 65536) : fromBe16 (be16 n) = n := by
  simp only [fromBe16, be16, List.getD]
  simp
  omega

lemma ExtensionId.ofDiscr_discr (id : ExtensionId) :
    ExtensionId.ofDiscr id.discr = some id := by
  cases id <;> rfl

lemma ExtensionId.discr_lt (id : ExtensionId) : id.discr < 12 := by
  cases id <;> simp [ExtensionId.discr]

lemma ExtensionId.ofDiscr_eq_none (c : Nat) (hc : 12 ≤ c) :
    ExtensionId.ofDiscr c = none := by
  simp only [ExtensionId.ofDiscr]
  rw [List.getElem?_eq_none]
  simpa [ExtensionId.variants] using hc

lemma readExact_append (xs : Bytes) {k : Nat} (ys : Bytes)
    (h : xs.length = k) : readExact k (xs ++ ys) = some (xs, ys) := by
  subst h
  simp [readExact, List.take_left, List.drop_left]

lemma drop_replicate_append (k z : Nat) (a : Bytes) :
    (List.replicate k z ++ a).drop k = a := by
  have h := List.drop_left (List.replicate k z) a
  rwa [List.length_replicate] at h

lemma lightning_decode_encode (x : AnnouncedNodeAddr) (hx : x.WF)
    (bs rest : Bytes) (henc : x.lightning_encode = .ok bs) :
    AnnouncedNodeAddr.lightning_decode (bs ++ rest) = .ok (x, rest) := by
  cases x with
  | IpV4 a p =>
    obtain ⟨ha, -, hp⟩ := hx
    simp only [AnnouncedNodeAddr.lightning_encode, Except.ok.injEq] at henc
    subst henc
    have e1 : ∀ ys : Bytes, readExact 1 ([1] ++ ys) = some ([1], ys) :=
      fun ys => readExact_append [1] ys rfl
    have e4 : ∀ ys : Bytes, readExact 4 (a ++ ys) = some (a, ys) :=
      fun ys => readExact_append a ys ha
    have e2 : ∀ ys : Bytes, readExact 2 (be16 p ++ ys) = some (be16 p, ys) :=
      fun ys => readExact_append (be16 p) ys rfl
    simp only [List.append_assoc, AnnouncedNodeAddr.lightning_decode, e1, e4,
      e2, List.getD_cons_zero, fromBe16_be16 p hp]
    simp
  | IpV6 a p =>
    obtain ⟨ha, -, hp⟩ := hx
    simp only [AnnouncedNodeAddr.lightning_encode, Except.ok.injEq] at henc
    subst henc
    have e1 : ∀ ys : Bytes, readExact 1 ([2] ++ ys) = some ([2], ys) :=
      fun ys => readExact_append [2] ys rfl
    have e16 : ∀ ys : Bytes, readExact 16 (a ++ ys) = some (a, ys) :=
      fun ys => readExact_append a ys ha
    have e2 : ∀ ys : Bytes, readExact 2 (be16 p ++ ys) = some (be16 p, ys) :=
      fun ys => readExact_append (be16 p) ys rfl
    simp only [List.append_assoc, AnnouncedNodeAddr.lightning_decode, e1, e16,
      e2, List.getD_cons_zero, fromBe16_be16 p hp]
    simp
  | OnionV2 a p =>
    obtain ⟨ha, -, hp⟩ := hx
    simp only [AnnouncedNodeAddr.lightning_encode, Except.ok.injEq] at henc
    subst henc
    have e1 : ∀ ys : Bytes, readExact 1 ([3] ++ ys) = some ([3], ys) :=
      fun ys => readExact_append [3] ys rfl
    have e10 : ∀ ys : Bytes, readExact 10 (a ++ ys) = some (a, ys) :=
      fun ys => readExact_append a ys ha
    have e2 : ∀ ys : Bytes, readExact 2 (be16 p ++ ys) = some (be16 p, ys) :=
      fun ys => readExact_append (be16 p) ys rfl
    simp only [List.append_assoc, AnnouncedNodeAddr.lightning_decode, e1, e10,
      e2, List.getD_cons_zero, fromBe16_be16 p hp]
    simp
  | OnionV3 pk c v p =>
    obtain ⟨hpk, -, hc, hv, hp⟩ := hx
    cases c with
    | none => simp [AnnouncedNodeAddr.lightning_encode] at henc
    | some cs =>
      cases v with
      | none => simp [AnnouncedNodeAddr.lightning_encode] at henc
      | some vs =>
        have hcs : cs < 65536 := hc cs rfl
        have hvs : vs < 256 := hv vs rfl
        simp only [AnnouncedNodeAddr.lightning_encode, Except.ok.injEq]
          at henc
        subst henc
        have e1 : ∀ ys : Bytes, readExact 1 ([4] ++ ys) = some ([4], ys) :=
          fun ys => readExact_append [4] ys rfl
        have e32 : ∀ ys : Bytes, readExact 32 (pk ++ ys) = some (pk, ys) :=
          fun ys => readExact_append pk ys hpk
        have ecs : ∀ ys : Bytes,
            readExact 2 (be16 cs ++ ys) = some (be16 cs, ys) :=
          fun ys => readExact_append (be16 cs) ys rfl
        have ev : ∀ ys : Bytes, readExact 1 (vs :: ys) = some ([vs], ys) :=
          fun ys => readExact_append [vs] ys rfl
        have ep : ∀ ys : Bytes,
            readExact 2 (be16 p ++ ys) = some (be16 p, ys) :=
          fun ys => readExact_append (be16 p) ys rfl
        simp only [List.append_assoc, AnnouncedNodeAddr.lightning_decode, e1,
          e32, ecs, ev, ep, List.getD_cons_zero, fromBe16_be16 p hp,
          fromBe16_be16 cs hcs, Nat.mod_eq_of_lt hvs]
        simp [ev, ep, fromBe16_be16 p hp]

lemma encodeItems_ok :
    ∀ l : List AnnouncedNodeAddr,
      (∀ a ∈ l, ∃ bs, a.lightning_encode = .ok bs) →
      ∃ body, encodeItems l = .ok body
  | [], _ => ⟨[], rfl⟩
  | a :: as, h => by
    obtain ⟨b, hb⟩ := h a (List.mem_cons_self a as)
    obtain ⟨bs, hbs⟩ :=
      encodeItems_ok as (fun x hx => h x (List.mem_cons_of_mem a hx))
    exact ⟨b ++ bs, by simp [encodeItems, hb, hbs]⟩

lemma addressList_encode_eq (l : AddressList) (body : Bytes)
    (hb : encodeItems l = .ok body) :
    AddressList.lightning_encode l =
      .ok (be16 (l.length % 65536) ++ body) := by
  unfold AddressList.lightning_encode
  rw [hb]

lemma decodeItems_encodeItems :
    ∀ (l : List AnnouncedNodeAddr) (body rest : Bytes),
      (∀ a ∈ l, a.WF) → encodeItems l = .ok body →
      decodeItems l.length (body ++ rest) = .ok (l, rest)
  | [], body, rest, _, henc => by
    simp only [encodeItems, Except.ok.injEq] at henc
    subst henc
    simp [decodeItems]
  | a :: as, body, rest, hl, henc => by
    cases hae : a.lightning_encode with
    | error e => rw [encodeItems, hae] at henc; exact Except.noConfusion henc
    | ok b =>
      cases has : encodeItems as with
      | error e =>
        rw [encodeItems, hae, has] at henc
        exact Except.noConfusion henc
      | ok bs =>
        rw [encodeItems, hae, has] at henc
        simp only [Except.ok.injEq] at henc
        subst henc
        rw [List.length_cons, List.append_assoc]
        simp only [decodeItems,
          lightning_decode_encode a (hl a (List.mem_cons_self a as)) b
            (bs ++ rest) hae,
          decodeItems_encodeItems as bs rest
            (fun x hx => hl x (List.mem_cons_of_mem a hx)) has]

/-! ## Claim theorems -/

/-- C1: the claim says `ChannelId::with` XORs txid bytes 30 and 31 with the
big-endian bytes of the 16-bit output index. The code instead XORs them
with the two most-significant bytes of the 32-bit `vout`, which are zero
for any `vout < 2 ^ 16`: at txid = 32 zero bytes and `vout = 1`, the code
returns the txid unchanged, while the specified derivation sets byte 31
to 1. -/
theorem channelId_with_ignores_output_index :
    ChannelId.with_outpoint (List.replicate 32 0) 1 = List.replicate 32 0 ∧
    derive_channel_id_spec (List.replicate 32 0) 1 =
      (List.replicate 32 0).set 31 1 := by
  decide

/-- C2 counterexample: at `block_height = 2 ^ 24` (and zero tx/output index)
the claim says construction returns no value; `ShortChannelId::new` accepts
it, and on the accepted value the encode/decode round trip loses the
height. -/
theorem shortChannelId_new_accepts_2pow24 :
    ShortChannelId.new 16777216 0 0 = some ⟨16777216, 0, 0⟩ ∧
    ShortChannelId.strict_decode
        (ShortChannelId.strict_encode ⟨16777216, 0, 0⟩) =
      .ok (⟨0, 0, 0⟩, []) := by
  decide

/-- C2 (amended): `ShortChannelId::new` returns no value exactly when
`block_height > 2 ^ 24` or `tx_index > 2 ^ 24`; whenever both fields are
strictly below `2 ^ 24` it returns the triple, and the 8-byte structural
encoding of that value decodes back to the same triple. -/
theorem shortChannelId_new_roundtrip (h t o : Nat) (ho : o < 65536) :
    (ShortChannelId.new h t o = none ↔ 2 ^ 24 < h ∨ 2 ^ 24 < t) ∧
    (h < 2 ^ 24 → t < 2 ^ 24 →
      ShortChannelId.new h t o = some ⟨h, t, o⟩ ∧
      ShortChannelId.strict_decode (ShortChannelId.strict_encode ⟨h, t, o⟩) =
        .ok (⟨h, t, o⟩, [])) := by
  constructor
  · simp only [ShortChannelId.new, two_shiftLeft_23]
    split <;> simp_all
  · intro h1 h2
    constructor
    · simp only [ShortChannelId.new, two_shiftLeft_23]
      split <;> [omega; rfl]
    · simp only [ShortChannelId.strict_encode, ShortChannelId.strict_decode,
        readExact]
      norm_num [List.take, List.drop, List.getD]
      refine ⟨?_, ?_, ?_⟩ <;> omega

/-- C2 witness: the amended theorem applied at `(3, 5, 7)`. -/
theorem shortChannelId_new_roundtrip_witness :
    ShortChannelId.new 3 5 7 = some ⟨3, 5, 7⟩ ∧
    ShortChannelId.strict_decode (ShortChannelId.strict_encode ⟨3, 5, 7⟩) =
      .ok (⟨3, 5, 7⟩, []) :=
  (shortChannelId_new_roundtrip 3 5 7 (by norm_num)).2 (by norm_num)
    (by norm_num)

/-- C6: `to_code` / `from_code` on `ExtensionId` round-trips every variant,
is injective, and `from_code` fails for every 16-bit code matched by no
variant. -/
theorem extensionId_code_bijection :
    (∀ id : ExtensionId,
      ExtensionId.from_code (ExtensionId.to_code id) = .ok id) ∧
    (∀ i j : ExtensionId,
      ExtensionId.to_code i = ExtensionId.to_code j → i = j) ∧
    (∀ c : Nat, c < 65536 → (∀ id : ExtensionId, ExtensionId.to_code id ≠ c) →
      ExtensionId.from_code c = .error .enumValueNotKnown) := by
  refine ⟨?_, ?_, ?_⟩
  · intro id; cases id <;> rfl
  · decide
  · intro c hc hno
    have h12 : 12 ≤ c := by
      by_contra hlt
      push_neg at hlt
      interval_cases c <;>
        first
          | exact hno .Channel rfl
          | exact hno .Bolt3 rfl
          | exact hno .Eltoo rfl
          | exact hno .Taproot rfl
          | exact hno .Htlc rfl
          | exact hno .Ptlc rfl
          | exact hno .ShutdownScript rfl
          | exact hno .AnchorOut rfl
          | exact hno .Dlc rfl
          | exact hno .Lightspeed rfl
          | exact hno .Bip96 rfl
          | exact hno .Rgb rfl
    simp only [ExtensionId.from_code, ExtensionId.strict_deserialize,
      fromBe16_be16 c hc, ExtensionId.ofDiscr_eq_none c h12]

/-- C6 witness: the bijection theorem applied at `Rgb`, at a pair of equal
variants, and at the unmatched code 12. -/
theorem extensionId_code_bijection_witness :
    ExtensionId.from_code (ExtensionId.to_code .Rgb) = .ok .Rgb ∧
    ExtensionId.from_code 12 = .error .enumValueNotKnown :=
  ⟨extensionId_code_bijection.1 .Rgb,
    extensionId_code_bijection.2.2 12 (by norm_num) (by decide)⟩

/-- C7 counterexample: the claim says every `Unknown(x)` round-trips
through the numeric code, but `Unknown(0)` comes back as `HtlcSuccess`
and `Unknown(1)` as `HtlcTimeout`. -/
theorem txType_unknown_zero_collapses :
    TxType.from_code (TxType.to_code (TxType.Unknown 0)) = TxType.HtlcSuccess ∧
    TxType.from_code (TxType.to_code (TxType.Unknown 1)) =
      TxType.HtlcTimeout := by
  decide

/-- C7 (amended): the numeric round trip restores `HtlcSuccess`,
`HtlcTimeout`, and every `Unknown(x)` with `x` outside the reserved codes
0 and 1. -/
theorem txType_code_roundtrip (ty : TxType)
    (hty : ∀ x, ty = TxType.Unknown x → 2 ≤ x) :
    TxType.from_code (TxType.to_code ty) = ty := by
  cases ty with
  | HtlcSuccess => rfl
  | HtlcTimeout => rfl
  | Unknown x =>
    have hx := hty x rfl
    obtain ⟨n, rfl⟩ : ∃ n, x = n + 2 := ⟨x - 2, by omega⟩
    rfl

/-- C7 witness: the amended round trip applied at `Unknown 7`. -/
theorem txType_code_roundtrip_witness :
    TxType.from_code (TxType.to_code (TxType.Unknown 7)) = TxType.Unknown 7 :=
  txType_code_roundtrip (TxType.Unknown 7)
    (by intro x hx; injection hx with h; omega)

/-- C3: for every well-formed address value, wire-decoding the bytes that
wire-encoding produced for it yields the original value with the stream
fully consumed. -/
theorem announcedNodeAddr_wire_roundtrip (x : AnnouncedNodeAddr) (hx : x.WF)
    (bs : Bytes) (henc : x.lightning_encode = .ok bs) :
    AnnouncedNodeAddr.lightning_decode bs = .ok (x, []) := by
  have h := lightning_decode_encode x hx bs [] henc
  rwa [List.append_nil] at h

/-- C3 witness: the round trip applied to the repository's own IPv4 test
vector, whose encoding is `01 ff fe fd fc 26 07`. -/
theorem announcedNodeAddr_wire_roundtrip_witness :
    AnnouncedNodeAddr.lightning_decode [1, 255, 254, 253, 252, 38, 7] =
      .ok (.IpV4 [255, 254, 253, 252] 9735, []) :=
  announcedNodeAddr_wire_roundtrip (.IpV4 [255, 254, 253, 252] 9735)
    ⟨rfl, by decide, by decide⟩ [1, 255, 254, 253, 252, 38, 7] rfl

/-- C4: converting a well-formed address to the uniform form and back
restores IPv4, IPv6 and OnionV2 values exactly, and restores OnionV3
values with `checksum = None` and `version = None` regardless of the
input's checksum and version. -/
theorem announcedNodeAddr_uniform_roundtrip (x : AnnouncedNodeAddr)
    (hx : x.WF) :
    AnnouncedNodeAddr.from_uniform_addr (AnnouncedNodeAddr.to_uniform_addr x) =
      .ok (match x with
        | .OnionV3 pk _ _ p => .OnionV3 pk none none p
        | y => y) := by
  cases x <;>
    simp [AnnouncedNodeAddr.from_uniform_addr,
      AnnouncedNodeAddr.from_uniform_addr_lossy,
      AnnouncedNodeAddr.to_uniform_addr, AnnouncedNodeAddr.addr_format,
      AnnouncedNodeAddr.addr, AnnouncedNodeAddr.port,
      drop_replicate_append]

/-- C4 witness: the uniform round trip applied to an OnionV2 value and to
an OnionV3 value whose checksum and version are dropped. -/
theorem announcedNodeAddr_uniform_roundtrip_witness :
    AnnouncedNodeAddr.from_uniform_addr
        (AnnouncedNodeAddr.to_uniform_addr
          (.OnionV2 [255, 254, 253, 252, 251, 250, 249, 248, 247, 246]
            9735)) =
      .ok (.OnionV2 [255, 254, 253, 252, 251, 250, 249, 248, 247, 246]
        9735) ∧
    AnnouncedNodeAddr.from_uniform_addr
        (AnnouncedNodeAddr.to_uniform_addr
          (.OnionV3 (List.replicate 32 7) (some 32) (some 16) 9735)) =
      .ok (.OnionV3 (List.replicate 32 7) none none 9735) :=
  ⟨announcedNodeAddr_uniform_roundtrip
      (.OnionV2 [255, 254, 253, 252, 251, 250, 249, 248, 247, 246] 9735)
      ⟨rfl, by decide, by decide⟩,
    announcedNodeAddr_uniform_roundtrip
      (.OnionV3 (List.replicate 32 7) (some 32) (some 16) 9735)
      ⟨rfl, by decide, by decide, by decide, by decide⟩⟩

/-- C5: OnionV3 wire encoding fails with the data-integrity (`InvalidData`)
error whenever checksum or version is absent, and with both present it
succeeds, writing the tag, the pubkey, the 2-byte checksum, the 1-byte
version and the 2-byte port. -/
theorem onionV3_encode_requires_checksum_version (pk : Bytes)
    (c v : Option Nat) (p : Nat) :
    ((c = none ∨ v = none) →
      AnnouncedNodeAddr.lightning_encode (.OnionV3 pk c v p) =
        .error .invalidData) ∧
    (∀ cs vs, c = some cs → v = some vs →
      AnnouncedNodeAddr.lightning_encode (.OnionV3 pk c v p) =
        .ok ([4] ++ pk ++ be16 cs ++ [vs % 256] ++ be16 p)) := by
  constructor
  · rintro (rfl | rfl)
    · rfl
    · cases c <;> rfl
  · rintro cs vs rfl rfl
    rfl

/-- C5 witness: a missing checksum makes encoding fail; a full OnionV3
value encodes to the documented layout. -/
theorem onionV3_encode_requires_checksum_version_witness :
    AnnouncedNodeAddr.lightning_encode
        (.OnionV3 (List.replicate 32 0) none (some 16) 9735) =
      .error .invalidData ∧
    AnnouncedNodeAddr.lightning_encode
        (.OnionV3 (List.replicate 32 0) (some 32) (some 16) 9735) =
      .ok ([4] ++ List.replicate 32 0 ++ be16 32 ++ [16 % 256] ++
        be16 9735) :=
  ⟨(onionV3_encode_requires_checksum_version _ _ _ _).1 (Or.inl rfl),
    (onionV3_encode_requires_checksum_version _ _ _ _).2 32 16 rfl rfl⟩

/-- C8 counterexample: the element count is truncated to 16 bits
(`len as u16`), so a 65536-element list whose every element wire-encodes
successfully encodes with count bytes `00 00` and decodes back to the
empty list, not to a list of the same length. -/
theorem addressList_truncates_at_65536 :
    bigList.length = 65536 ∧
    ∃ out, AddressList.lightning_encode bigList = .ok out ∧
      AddressList.lightning_decode out =
        .ok (([] : AddressList), out.drop 2) := by
  have hlen : bigList.length = 65536 := by
    simp only [bigList]
    exact List.length_replicate 65536 _
  refine ⟨hlen, ?_⟩
  have hencAll : ∀ a ∈ bigList, ∃ bs, a.lightning_encode = .ok bs := by
    intro a ha
    simp only [bigList] at ha
    rw [List.eq_of_mem_replicate ha]
    exact ⟨_, rfl⟩
  obtain ⟨body, hb⟩ := encodeItems_ok bigList hencAll
  have hlen0 : bigList.length % 65536 = 0 := by
    rw [hlen]
  have henc2 := addressList_encode_eq bigList body hb
  rw [hlen0] at henc2
  refine ⟨be16 0 ++ body, henc2, ?_⟩
  have h2 : readExact 2 (be16 0 ++ body) = some (be16 0, body) :=
    readExact_append _ body rfl
  simp only [AddressList.lightning_decode, h2]
  simp [fromBe16, be16, decodeItems]

/-- C8 (amended): for every address list of fewer than `2 ^ 16` elements,
all well-formed and each wire-encodable, the wire round trip restores the
same elements in the same order, and the empty list encodes to the two
bytes `00 00` and decodes back to the empty list. -/
theorem addressList_wire_roundtrip (l : AddressList)
    (hlen : l.length < 65536) (hwf : ∀ a ∈ l, a.WF)
    (henc : ∀ a ∈ l, ∃ bs, a.lightning_encode = .ok bs) :
    (∃ out, AddressList.lightning_encode l = .ok out ∧
      AddressList.lightning_decode out = .ok (l, [])) ∧
    AddressList.lightning_encode [] = .ok [0, 0] ∧
    AddressList.lightning_decode [0, 0] = .ok ([], []) := by
  refine ⟨?_, rfl, rfl⟩
  obtain ⟨body, hb⟩ := encodeItems_ok l henc
  have hmod : l.length % 65536 = l.length := Nat.mod_eq_of_lt hlen
  refine ⟨be16 l.length ++ body, ?_, ?_⟩
  · rw [addressList_encode_eq l body hb, hmod]
  · have h2 : readExact 2 (be16 l.length ++ body) =
        some (be16 l.length, body) :=
      readExact_append _ body rfl
    simp only [AddressList.lightning_decode, h2,
      fromBe16_be16 l.length hlen]
    have h3 := decodeItems_encodeItems l body [] hwf hb
    rwa [List.append_nil] at h3

/-- C8 witness: the round trip applied to a one-element list. -/
theorem addressList_wire_roundtrip_witness :
    ∃ out,
      AddressList.lightning_encode
          [AnnouncedNodeAddr.IpV4 [255, 254, 253, 252] 9735] = .ok out ∧
      AddressList.lightning_decode out =
        .ok ([AnnouncedNodeAddr.IpV4 [255, 254, 253, 252] 9735], []) :=
  (addressList_wire_roundtrip [.IpV4 [255, 254, 253, 252] 9735]
    (by decide)
    (by
      intro a ha
      rw [List.mem_singleton] at ha
      subst ha
      exact ⟨rfl, by decide, by decide⟩)
    (by
      intro a ha
      rw [List.mem_singleton] at ha
      subst ha
      exact ⟨_, rfl⟩)).1

/-- C9: the nominally non-lossy uniform decoding entry point agrees with
the lossy one on every input. -/
theorem from_uniform_addr_eq_lossy (u : UniformAddr) :
    AnnouncedNodeAddr.from_uniform_addr u =
      AnnouncedNodeAddr.from_uniform_addr_lossy u := rfl

/-- C10: every address produced by a successful wire decode can itself be
wire-encoded without error (decoded OnionV3 values always carry a checksum
and a version). -/
theorem decoded_addr_encodes (d : Bytes) (x : AnnouncedNodeAddr)
    (rest : Bytes)
    (hdec : AnnouncedNodeAddr.lightning_decode d = .ok (x, rest)) :
    ∃ bs, AnnouncedNodeAddr.lightning_encode x = .ok bs := by
  simp only [AnnouncedNodeAddr.lightning_decode] at hdec
  repeat'
    first
      | exact Except.noConfusion hdec
      | split at hdec
  all_goals
    injection hdec with h1
    injection h1 with hx hrest
    subst hx
    exact ⟨_, rfl⟩

/-- C10 witness: the decoded IPv4 test vector re-encodes. -/
theorem decoded_addr_encodes_witness :
    ∃ bs,
      AnnouncedNodeAddr.lightning_encode (.IpV4 [255, 254, 253, 252] 9735) =
        .ok bs :=
  decoded_addr_encodes [1, 255, 254, 253, 252, 38, 7] _ [] rfl

end LnpCore
